import Mathlib

/-!
Shallow embedding of the repESP core: the grid/mesh abstraction, the generic
field container with arithmetic, the per-point field-evaluation engine, and
the isovalue-based Euclidean distance transform.

Sources embedded:
  * `repESP/fields.py` — `GridMesh.Axis`, `GridMesh`, `Field` (construction,
    `__add__`, `__neg__`, `__sub__`, `points`, `__len__`);
  * `cube_helpers.py` — `Atom.__init__` (identity lookup), `GridAxis.set_point_count`,
    `Grid` point-count handling, `Molecule._dist_func`, `Molecule._rep_esp_func`,
    `Molecule.calc_field`, `FieldQ.distance_transform`, `FieldQ.write_cube`
    (value-block wrapping).

Real numbers in the Python code are modelled by `ℚ` (exact arithmetic); where
the code compares or zero-tests Euclidean distances, the model works with
squared distances, which is faithful because `Real.sqrt` is strictly monotone
on nonnegative arguments (so every `<`, `=` and `0 <` test agrees).
Python exceptions are modelled by `Except PyErr`.
-/

/-- A point in 3-space (coordinates in atomic units). -/
abbrev Point : Type := ℚ × ℚ × ℚ

/-- The Python exception classes relevant to the embedded code paths. -/
inductive PyErr where
  | gridError
  | valueError
  | keyError
  | zeroDivision
  | nameError
  deriving DecidableEq, Repr

/-- `true` iff an `Except` computation completed without raising. -/
def exceptOk {α : Type _} : Except PyErr α → Bool
  | .ok _ => true
  | .error _ => false

/-! ## `repESP/fields.py`: `GridMesh.Axis`, `GridMesh` -/

/-- `GridMesh.Axis`: a step vector and a point count (`fields.py`). -/
structure Axis where
  vector : Point
  point_count : Nat
  deriving DecidableEq, Repr

/-- `GridMesh.Axis.__post_init__` (`fields.py` 175-179): a negative
`point_count` raises `ValueError`; the dataclass stores it otherwise. -/
def Axis.make (vector : Point) (point_count : Int) : Except PyErr Axis :=
  if point_count < 0 then .error .valueError
  else .ok ⟨vector, point_count.toNat⟩

/-- `GridMesh` (`fields.py`): an origin and three axes.  The `Axes` tuple is
modelled by three named fields; dataclass equality is structural equality. -/
structure GridMesh where
  origin : Point
  ax0 : Axis
  ax1 : Axis
  ax2 : Axis
  deriving DecidableEq, Repr

/-- `GridMesh.__len__` (`fields.py` 242-246): the left fold of `*` over the
three axis point counts. -/
def GridMesh.len (m : GridMesh) : Nat :=
  m.ax0.point_count * m.ax1.point_count * m.ax2.point_count

/-- `GridMesh.points` (`fields.py` 214-240): `z` incremented first, then `y`,
then `x`; the point at indices `(i, j, k)` is the origin shifted by `i`, `j`,
`k` steps along the respective axis diagonals. -/
def GridMesh.points (m : GridMesh) : List Point :=
  (List.range m.ax0.point_count).flatMap fun (i : Nat) =>
    (List.range m.ax1.point_count).flatMap fun (j : Nat) =>
      (List.range m.ax2.point_count).map fun (k : Nat) =>
        (m.origin.1 + (i : ℚ) * m.ax0.vector.1,
         m.origin.2.1 + (j : ℚ) * m.ax1.vector.2.1,
         m.origin.2.2 + (k : ℚ) * m.ax2.vector.2.2)

/-! ## `repESP/fields.py`: `Field` -/

/-- `Field` (`fields.py`): a mesh together with one value per mesh point,
instantiated at numeric (`ℚ`) values as used by the arithmetic operations. -/
structure FieldQ where
  mesh : GridMesh
  values : List ℚ
  deriving DecidableEq, Repr

/-- `FieldQ.__post_init__` (`fields.py` 286-294): raises `ValueError` iff the
number of values differs from the number of mesh points. -/
def FieldQ.make (mesh : GridMesh) (values : List ℚ) : Except PyErr FieldQ :=
  if values.length ≠ mesh.len then .error .valueError
  else .ok ⟨mesh, values⟩

/-- `FieldQ.__add__` (`fields.py` 299-317): raises `ValueError` on mesh
mismatch, otherwise builds a new `Field` (through the validating constructor)
whose values are the pointwise sums. -/
def FieldQ.add (a b : FieldQ) : Except PyErr FieldQ :=
  if a.mesh ≠ b.mesh then .error .valueError
  else FieldQ.make a.mesh (List.zipWith (· + ·) a.values b.values)

/-- `FieldQ.__neg__` (`fields.py` 319-326): a new `Field` over the same mesh
with negated values. -/
def FieldQ.negate (a : FieldQ) : Except PyErr FieldQ :=
  FieldQ.make a.mesh (a.values.map Neg.neg)

/-- `FieldQ.__sub__` (`fields.py` 328-329): `self + (-other)`. -/
def FieldQ.sub (a b : FieldQ) : Except PyErr FieldQ :=
  FieldQ.negate b >>= fun nb => FieldQ.add a nb

/-! ## C7: FieldQ construction fails iff the value count mismatches -/

/-- C7: constructing a `Field` over a mesh fails iff the number of values
differs from the mesh's point count; on a length match it succeeds and stores
exactly the given mesh and values, and on a mismatch it raises (`ValueError`),
never a warning. -/
theorem field_construction_iff (m : GridMesh) (vs : List ℚ) :
    (vs.length = m.len → FieldQ.make m vs = .ok ⟨m, vs⟩) ∧
    (vs.length ≠ m.len → FieldQ.make m vs = .error .valueError) := by
  constructor
  · intro h
    simp [FieldQ.make, h]
  · intro h
    simp [FieldQ.make, h]

/-- Witness for C7 at concrete inputs: a 1×1×2 mesh accepts two values and
rejects three. -/
theorem field_construction_iff_witness :
    FieldQ.make ⟨(0, 0, 0), ⟨(1, 0, 0), 1⟩, ⟨(0, 1, 0), 1⟩, ⟨(0, 0, 1), 2⟩⟩ [5, 7]
      = .ok ⟨⟨(0, 0, 0), ⟨(1, 0, 0), 1⟩, ⟨(0, 1, 0), 1⟩, ⟨(0, 0, 1), 2⟩⟩, [5, 7]⟩ ∧
    FieldQ.make ⟨(0, 0, 0), ⟨(1, 0, 0), 1⟩, ⟨(0, 1, 0), 1⟩, ⟨(0, 0, 1), 2⟩⟩ [5, 7, 9]
      = .error .valueError :=
  ⟨(field_construction_iff _ _).1 (by decide),
   (field_construction_iff _ _).2 (by decide)⟩

/-! ## C4: FieldQ arithmetic -/

/-- Pointwise `(xs + ys) + (-ys) = xs` on equal-length lists. -/
theorem zipWith_add_map_neg :
    ∀ (xs ys : List ℚ), xs.length = ys.length →
      List.zipWith (· + ·) (List.zipWith (· + ·) xs ys) (ys.map Neg.neg) = xs := by
  intro xs
  induction xs with
  | nil => intro ys _; simp
  | cons x xs ih =>
    intro ys h
    cases ys with
    | nil => simp at h
    | cons y ys =>
      simp only [List.zipWith, List.map]
      rw [ih ys (by simpa using h)]
      simp

/-- C4: for Fields `a` and `b` (each satisfying the construction invariant)
sharing an identical mesh, `(a + b) - b` succeeds and reproduces `a`'s values
exactly (the model is exact, so "within floating tolerance" is equality);
for differing meshes both addition and subtraction raise (`ValueError`). -/
theorem field_add_sub_roundtrip (a b : FieldQ)
    (ha : a.values.length = a.mesh.len) (hb : b.values.length = b.mesh.len) :
    (a.mesh = b.mesh →
      ∃ c d, FieldQ.add a b = .ok c ∧ FieldQ.sub c b = .ok d ∧
        d.mesh = a.mesh ∧ d.values = a.values) ∧
    (a.mesh ≠ b.mesh →
      FieldQ.add a b = .error .valueError ∧ FieldQ.sub a b = .error .valueError) := by
  constructor
  · intro hmesh
    have hlen : a.values.length = b.values.length := by rw [ha, hb, hmesh]
    have hzip : (List.zipWith (· + ·) a.values b.values).length = a.mesh.len := by
      rw [List.length_zipWith, hlen, min_self, hb, hmesh]
    refine ⟨⟨a.mesh, List.zipWith (· + ·) a.values b.values⟩,
            ⟨a.mesh, a.values⟩, ?_, ?_, rfl, rfl⟩
    · simp [FieldQ.add, hmesh, FieldQ.make, hzip]
    · have hnb : FieldQ.negate b = .ok ⟨b.mesh, b.values.map Neg.neg⟩ := by
        simp [FieldQ.negate, FieldQ.make, List.length_map, hb]
      have hrt := zipWith_add_map_neg a.values b.values hlen
      simp only [FieldQ.sub, hnb, bind, Except.bind]
      simp [FieldQ.add, hmesh, FieldQ.make, hrt, ha]
  · intro hmesh
    refine ⟨by simp [FieldQ.add, hmesh], ?_⟩
    have hnb : FieldQ.negate b = .ok ⟨b.mesh, b.values.map Neg.neg⟩ := by
      simp [FieldQ.negate, FieldQ.make, List.length_map, hb]
    simp only [FieldQ.sub, hnb, bind, Except.bind]
    simp [FieldQ.add, hmesh]

/-- Witness for C4 at concrete inputs: over a shared 1×1×2 mesh the
round-trip succeeds and reproduces the values; over differing meshes both
operations raise. -/
theorem field_add_sub_roundtrip_witness :
    (∃ c d,
      FieldQ.add ⟨⟨(0, 0, 0), ⟨(1, 0, 0), 1⟩, ⟨(0, 1, 0), 1⟩, ⟨(0, 0, 1), 2⟩⟩, [1, 2]⟩
                ⟨⟨(0, 0, 0), ⟨(1, 0, 0), 1⟩, ⟨(0, 1, 0), 1⟩, ⟨(0, 0, 1), 2⟩⟩, [3, 4]⟩ = .ok c ∧
      FieldQ.sub c ⟨⟨(0, 0, 0), ⟨(1, 0, 0), 1⟩, ⟨(0, 1, 0), 1⟩, ⟨(0, 0, 1), 2⟩⟩, [3, 4]⟩ = .ok d ∧
      d.mesh = ⟨(0, 0, 0), ⟨(1, 0, 0), 1⟩, ⟨(0, 1, 0), 1⟩, ⟨(0, 0, 1), 2⟩⟩ ∧
      d.values = [1, 2]) ∧
    (FieldQ.add ⟨⟨(0, 0, 0), ⟨(1, 0, 0), 1⟩, ⟨(0, 1, 0), 1⟩, ⟨(0, 0, 1), 2⟩⟩, [1, 2]⟩
               ⟨⟨(0, 0, 0), ⟨(1, 0, 0), 1⟩, ⟨(0, 1, 0), 1⟩, ⟨(0, 0, 1), 3⟩⟩, [3, 4, 5]⟩
        = .error .valueError ∧
     FieldQ.sub ⟨⟨(0, 0, 0), ⟨(1, 0, 0), 1⟩, ⟨(0, 1, 0), 1⟩, ⟨(0, 0, 1), 2⟩⟩, [1, 2]⟩
               ⟨⟨(0, 0, 0), ⟨(1, 0, 0), 1⟩, ⟨(0, 1, 0), 1⟩, ⟨(0, 0, 1), 3⟩⟩, [3, 4, 5]⟩
        = .error .valueError) :=
  ⟨(field_add_sub_roundtrip _ _ (by decide) (by decide)).1 (by decide),
   (field_add_sub_roundtrip _ _ (by decide) (by decide)).2 (by decide)⟩

/-! ## `cube_helpers.py`: `Atom.__init__` identity lookup (C2) -/

/-- The fixed 18-element periodic table (`cube_helpers.py` 75-92). -/
def periodic : List (String × String) :=
  [("H", "Hydrogen"), ("He", "Helium"), ("Li", "Lithium"), ("Be", "Beryllium"),
   ("B", "Boron"), ("C", "Carbon"), ("N", "Nitrogen"), ("O", "Oxygen"),
   ("F", "Fluorine"), ("Ne", "Neon"), ("Na", "Sodium"), ("Mg", "Magnesium"),
   ("Al", "Aluminum"), ("Si", "Silicon"), ("P", "Phosphorus"), ("S", "Sulfur"),
   ("Cl", "Chlorine"), ("Ar", "Argon")]

/-- Python list subscription `l[i]` with an `int` index: nonnegative indices
address from the front, negative indices address from the back
(`l[i] = l[len(l) + i]`), and anything else raises `IndexError` (`none`). -/
def pyGet {α : Type _} (l : List α) (i : Int) : Option α :=
  if 0 ≤ i then l.get? i.toNat
  else if i.natAbs ≤ l.length then l.get? (l.length - i.natAbs)
  else none

/-- `Atom.__init__` (`cube_helpers.py` 94-105): `identity` is
`Atom.periodic[atomic_no-1][0]`; only an `IndexError` falls back to
`str(atomic_no)`. -/
def atom_identity (atomic_no : Int) : String :=
  match pyGet periodic (atomic_no - 1) with
  | some entry => entry.1
  | none => toString atomic_no

theorem pyGet_none_of_length_le {α : Type _} (l : List α) (i : Int)
    (h : (l.length : Int) ≤ i) : pyGet l i = none := by
  have h0 : 0 ≤ i := le_trans (Int.ofNat_nonneg l.length) h
  simp [pyGet, h0, List.get?_eq_none]
  omega

theorem pyGet_none_of_lt_neg_length {α : Type _} (l : List α) (i : Int)
    (h : i < -(l.length : Int)) : pyGet l i = none := by
  have h0 : ¬ 0 ≤ i := by omega
  have hn : ¬ i.natAbs ≤ l.length := by omega
  simp [pyGet, h0, hn]

/-! ## C2 (corrected) -/

/-- C2 counterexample: atomic number `0` is outside the 18-element table, yet
the constructed identity is the element symbol `"Ar"` (Python's negative
indexing reads `periodic[-1]`), not the placeholder string `"0"`. -/
theorem atom_identity_zero_counterexample :
    atom_identity 0 = "Ar" ∧ "Ar" ∈ periodic.map Prod.fst ∧ atom_identity 0 ≠ "0" := by
  refine ⟨rfl, by decide, by decide⟩

/-- C2 (amended): constructing an `Atom` never crashes; for atomic numbers
above `18` or below `-17` the identity is the placeholder `str(atomic_no)`;
but for atomic numbers in `[-17, 0]` (also outside the table) Python's
negative indexing makes the identity the element symbol at table position
`atomic_no + 17`. -/
theorem atom_identity_spec (n : Int) :
    (18 < n ∨ n < -17 → atom_identity n = toString n) ∧
    (-17 ≤ n → n ≤ 0 →
      ∃ entry, periodic.get? (n + 17).toNat = some entry ∧
        atom_identity n = entry.1 ∧ atom_identity n ∈ periodic.map Prod.fst) := by
  constructor
  · intro h
    have hlen : periodic.length = 18 := by decide
    rcases h with h | h
    · have : pyGet periodic (n - 1) = none := by
        apply pyGet_none_of_length_le
        rw [hlen]; omega
      simp [atom_identity, this]
    · have : pyGet periodic (n - 1) = none := by
        apply pyGet_none_of_lt_neg_length
        rw [hlen]; omega
      simp [atom_identity, this]
  · intro h1 h2
    interval_cases n <;> decide

/-- Witness for C2 (amended) at concrete inputs `19` and `-3`. -/
theorem atom_identity_spec_witness :
    atom_identity 19 = "19" ∧
    ∃ entry, periodic.get? ((-3 : Int) + 17).toNat = some entry ∧
      atom_identity (-3) = entry.1 ∧ atom_identity (-3) ∈ periodic.map Prod.fst :=
  ⟨(atom_identity_spec 19).1 (Or.inl (by decide)),
   (atom_identity_spec (-3)).2 (by decide) (by decide)⟩

/-! ## `cube_helpers.py`: `GridAxis.set_point_count` (C3) -/

/-- `GridAxis.set_point_count` (`cube_helpers.py` 310-319): a non-integral
point count raises `GridError` on every axis; a negative one raises
`GridError` only when the axis label is `"x"`; otherwise `int(point_count)`
is stored.  The numeric argument is modelled by `ℚ` (integrality is
`den = 1`). -/
def set_point_count (label : String) (point_count : ℚ) : Except PyErr Int :=
  if point_count.den ≠ 1 then .error .gridError
  else if label = "x" ∧ point_count < 0 then .error .gridError
  else .ok point_count.num

/-- `Grid.__init__`/`Grid._add_axis` (`cube_helpers.py` 264-296): the three
axes are created with labels `"x"`, `"y"`, `"z"` and their point counts set
in that order. -/
def grid_set_counts (c0 c1 c2 : ℚ) : Except PyErr (Int × Int × Int) :=
  set_point_count "x" c0 >>= fun n0 =>
    set_point_count "y" c1 >>= fun n1 =>
      set_point_count "z" c2 >>= fun n2 => .ok (n0, n1, n2)

/-! ## C3 (corrected) -/

/-- C3 counterexample: grid construction with point count `-3` on the `y`
axis succeeds (returns the negative count) instead of failing, so negative
point counts are not rejected on every axis. -/
theorem set_point_count_counterexample :
    (-3 : ℚ) < 0 ∧ grid_set_counts 2 (-3) 4 = .ok (2, -3, 4) := by
  refine ⟨by norm_num, rfl⟩

/-- C3 (amended): a non-integral point count is rejected (`GridError`) on
every axis; a negative integral count is rejected only on the `x` axis, while
the `y` and `z` axes accept and store it; separately, `GridMesh.Axis` in
`fields.py` rejects a negative point count on any axis with `ValueError`. -/
theorem set_point_count_spec (label : String) (pc : ℚ) (v : Point) (n : Int) :
    (pc.den ≠ 1 → set_point_count label pc = .error .gridError) ∧
    (pc.den = 1 → pc < 0 → set_point_count "x" pc = .error .gridError) ∧
    (pc.den = 1 → pc < 0 → label ≠ "x" → set_point_count label pc = .ok pc.num) ∧
    (n < 0 → Axis.make v n = .error .valueError) := by
  refine ⟨fun h => by simp [set_point_count, h], fun h1 h2 => ?_, fun h1 h2 h3 => ?_, fun h => ?_⟩
  · simp [set_point_count, h1, h2]
  · simp [set_point_count, h1, h2, h3]
  · simp [Axis.make, h]

/-- Witness for C3 (amended) at concrete inputs: count `5/2` is rejected on
`z`; count `-3` is rejected on `x` but accepted on `y`; `Axis.make` rejects
`-3` outright. -/
theorem set_point_count_spec_witness :
    set_point_count "z" (5 / 2) = .error .gridError ∧
    set_point_count "x" (-3) = .error .gridError ∧
    set_point_count "y" (-3) = .ok (-3) ∧
    Axis.make (0, 1, 0) (-3) = .error .valueError :=
  ⟨(set_point_count_spec "z" (5 / 2) (0, 1, 0) (-3)).1 (by norm_num),
   ((set_point_count_spec "x" (-3) (0, 1, 0) (-3)).2.1 (by norm_num) (by norm_num)),
   ((set_point_count_spec "y" (-3) (0, 1, 0) (-3)).2.2.1 (by norm_num) (by norm_num) (by decide)),
   ((set_point_count_spec "y" (-3) (0, 1, 0) (-3)).2.2.2 (by norm_num))⟩

/-! ## `cube_helpers.py`: `Atom`, `Molecule._dist_func` (C5) -/

/-- `Atom` (`cube_helpers.py`): label, atomic number, coordinates, and the
name-keyed charge mapping (modelled as an association list). -/
structure Atom where
  label : Nat
  atomic_no : Int
  coords : Point
  charges : List (String × ℚ)
  deriving DecidableEq, Repr

/-- Squared Euclidean distance between two points.  The source computes
`scipy.spatial.distance.euclidean`, i.e. the square root of this; all its
uses in the embedded code compare distances with `<` or test them against
zero, which the square preserves. -/
def sqdist (p q : Point) : ℚ :=
  (p.1 - q.1) ^ 2 + (p.2.1 - q.2.1) ^ 2 + (p.2.2 - q.2.2) ^ 2

/-- The loop of `Molecule._dist_func` (`cube_helpers.py` 194-203):
`min_dist` starts at `float('inf')` (`⊤`), `min_atom` at `None`, and each
atom whose distance is strictly below the running minimum replaces both.
Distances are carried squared (see `sqdist`). -/
def dist_go (p : Point) : List Atom → Option Nat → WithTop ℚ → Option Nat × WithTop ℚ
  | [], min_atom, min_dist => (min_atom, min_dist)
  | a :: rest, min_atom, min_dist =>
    if (sqdist p a.coords : WithTop ℚ) < min_dist then
      dist_go p rest (some a.label) (sqdist p a.coords)
    else
      dist_go p rest min_atom min_dist

/-- `Molecule._dist_func` (`cube_helpers.py` 194-203). -/
def dist_func (mol : List Atom) (p : Point) : Option Nat × WithTop ℚ :=
  dist_go p mol none ⊤

/-- Accumulator invariant of the `_dist_func` loop: the run either leaves the
accumulator untouched (no atom strictly improves it) or returns the first
atom achieving the minimum distance, which strictly improves it. -/
theorem dist_go_spec (p : Point) :
    ∀ (mol : List Atom) (ma : Option Nat) (md : WithTop ℚ),
      (dist_go p mol ma md = (ma, md) ∧
        ∀ a ∈ mol, md ≤ (sqdist p a.coords : WithTop ℚ)) ∨
      (∃ i, ∃ hi : i < mol.length,
        dist_go p mol ma md =
          (some (mol.get ⟨i, hi⟩).label, (sqdist p (mol.get ⟨i, hi⟩).coords : WithTop ℚ)) ∧
        (sqdist p (mol.get ⟨i, hi⟩).coords : WithTop ℚ) < md ∧
        (∀ j, ∀ hj : j < mol.length,
          sqdist p (mol.get ⟨i, hi⟩).coords ≤ sqdist p (mol.get ⟨j, hj⟩).coords) ∧
        (∀ j, ∀ hj : j < mol.length, j < i →
          sqdist p (mol.get ⟨i, hi⟩).coords < sqdist p (mol.get ⟨j, hj⟩).coords)) := by
  intro mol
  induction mol with
  | nil =>
    intro ma md
    left
    exact ⟨rfl, by simp⟩
  | cons a rest ih =>
    intro ma md
    by_cases hlt : (sqdist p a.coords : WithTop ℚ) < md
    · rcases ih (some a.label) (sqdist p a.coords) with ⟨heq, hall⟩ | ⟨i, hi, heq, himp, hmin, hfirst⟩
      · right
        refine ⟨0, by simp, ?_, hlt, ?_, ?_⟩
        · simp [dist_go, hlt, heq]
        · intro j hj
          cases j with
          | zero => simp
          | succ j =>
            have := hall (rest.get ⟨j, by simpa using hj⟩) (by simp)
            have h2 : sqdist p a.coords ≤ sqdist p (rest.get ⟨j, by simpa using hj⟩).coords := by
              exact_mod_cast this
            simpa using h2
        · intro j hj hj0
          omega
      · right
        refine ⟨i + 1, by simpa using Nat.succ_lt_succ hi, ?_, ?_, ?_, ?_⟩
        · simp only [dist_go, if_pos hlt]
          rw [heq]
          simp
        · calc (sqdist p ((a :: rest).get ⟨i + 1, by simpa using Nat.succ_lt_succ hi⟩).coords : WithTop ℚ)
              < (sqdist p a.coords : WithTop ℚ) := by simpa using himp
            _ < md := hlt
        · intro j hj
          cases j with
          | zero =>
            have h2 : (sqdist p (rest.get ⟨i, hi⟩).coords : WithTop ℚ) < sqdist p a.coords := by
              simpa using himp
            have h3 : sqdist p (rest.get ⟨i, hi⟩).coords < sqdist p a.coords := by
              exact_mod_cast h2
            simpa using le_of_lt h3
          | succ j =>
            have := hmin j (by simpa using hj)
            simpa using this
        · intro j hj hji
          cases j with
          | zero =>
            have h2 : (sqdist p (rest.get ⟨i, hi⟩).coords : WithTop ℚ) < sqdist p a.coords := by
              simpa using himp
            have h3 : sqdist p (rest.get ⟨i, hi⟩).coords < sqdist p a.coords := by
              exact_mod_cast h2
            simpa using h3
          | succ j =>
            have := hfirst j (by simpa using hj) (by omega)
            simpa using this
    · rcases ih ma md with ⟨heq, hall⟩ | ⟨i, hi, heq, himp, hmin, hfirst⟩
      · left
        refine ⟨by simp [dist_go, hlt, heq], ?_⟩
        intro b hb
        rcases List.mem_cons.mp hb with hb | hb
        · subst hb; exact le_of_not_lt hlt
        · exact hall b hb
      · right
        refine ⟨i + 1, by simpa using Nat.succ_lt_succ hi, ?_, ?_, ?_, ?_⟩
        · simp only [dist_go, if_neg hlt]
          rw [heq]
          simp
        · simpa using himp
        · intro j hj
          cases j with
          | zero =>
            have h2 : (sqdist p (rest.get ⟨i, hi⟩).coords : WithTop ℚ) < md := himp
            have h3 : (sqdist p (rest.get ⟨i, hi⟩).coords : WithTop ℚ) ≤ sqdist p a.coords :=
              le_trans (le_of_lt h2) (le_of_not_lt hlt)
            have h4 : sqdist p (rest.get ⟨i, hi⟩).coords ≤ sqdist p a.coords := by
              exact_mod_cast h3
            simpa using h4
          | succ j =>
            have := hmin j (by simpa using hj)
            simpa using this
        · intro j hj hji
          cases j with
          | zero =>
            have h2 : (sqdist p (rest.get ⟨i, hi⟩).coords : WithTop ℚ) < md := himp
            have h3 : (sqdist p (rest.get ⟨i, hi⟩).coords : WithTop ℚ) < sqdist p a.coords :=
              lt_of_lt_of_le h2 (le_of_not_lt hlt)
            have h4 : sqdist p (rest.get ⟨i, hi⟩).coords < sqdist p a.coords := by
              exact_mod_cast h3
            simpa using h4
          | succ j =>
            have := hfirst j (by simpa using hj) (by omega)
            simpa using this

/-! ## C5 (confirmed) -/

/-- C5: on a non-empty molecule, `_dist_func` returns the minimum (squared)
Euclidean distance over all atoms together with the label of the atom
achieving it, and on ties the returned label is that of the first such atom
in molecule order (every strictly earlier atom is strictly farther). -/
theorem dist_func_first_min (mol : List Atom) (p : Point) (hne : mol ≠ []) :
    ∃ i, ∃ hi : i < mol.length,
      dist_func mol p =
        (some (mol.get ⟨i, hi⟩).label, (sqdist p (mol.get ⟨i, hi⟩).coords : WithTop ℚ)) ∧
      (∀ j, ∀ hj : j < mol.length,
        sqdist p (mol.get ⟨i, hi⟩).coords ≤ sqdist p (mol.get ⟨j, hj⟩).coords) ∧
      (∀ j, ∀ hj : j < mol.length, j < i →
        sqdist p (mol.get ⟨i, hi⟩).coords < sqdist p (mol.get ⟨j, hj⟩).coords) := by
  rcases dist_go_spec p mol none ⊤ with ⟨_, hall⟩ | ⟨i, hi, heq, _, hmin, hfirst⟩
  · cases mol with
    | nil => exact absurd rfl hne
    | cons a rest =>
      have := hall a (by simp)
      exact absurd this (by simp [WithTop.not_top_le_coe])
  · exact ⟨i, hi, heq, hmin, hfirst⟩

/-- Witness for C5 at a concrete input: two atoms both at squared distance 2
from the origin — the first one (label 1) is returned. -/
theorem dist_func_first_min_witness :
    ∃ i, ∃ hi : i < ([⟨1, 1, (1, 1, 0), []⟩, ⟨2, 1, (0, 1, 1), []⟩] : List Atom).length,
      dist_func [⟨1, 1, (1, 1, 0), []⟩, ⟨2, 1, (0, 1, 1), []⟩] (0, 0, 0) =
        (some (([⟨1, 1, (1, 1, 0), []⟩, ⟨2, 1, (0, 1, 1), []⟩] : List Atom).get ⟨i, hi⟩).label,
         (sqdist (0, 0, 0) (([⟨1, 1, (1, 1, 0), []⟩, ⟨2, 1, (0, 1, 1), []⟩] : List Atom).get ⟨i, hi⟩).coords : WithTop ℚ)) ∧
      (∀ j, ∀ hj : j < ([⟨1, 1, (1, 1, 0), []⟩, ⟨2, 1, (0, 1, 1), []⟩] : List Atom).length,
        sqdist (0, 0, 0) (([⟨1, 1, (1, 1, 0), []⟩, ⟨2, 1, (0, 1, 1), []⟩] : List Atom).get ⟨i, hi⟩).coords ≤
          sqdist (0, 0, 0) (([⟨1, 1, (1, 1, 0), []⟩, ⟨2, 1, (0, 1, 1), []⟩] : List Atom).get ⟨j, hj⟩).coords) ∧
      (∀ j, ∀ hj : j < ([⟨1, 1, (1, 1, 0), []⟩, ⟨2, 1, (0, 1, 1), []⟩] : List Atom).length, j < i →
        sqdist (0, 0, 0) (([⟨1, 1, (1, 1, 0), []⟩, ⟨2, 1, (0, 1, 1), []⟩] : List Atom).get ⟨i, hi⟩).coords <
          sqdist (0, 0, 0) (([⟨1, 1, (1, 1, 0), []⟩, ⟨2, 1, (0, 1, 1), []⟩] : List Atom).get ⟨j, hj⟩).coords) :=
  dist_func_first_min [⟨1, 1, (1, 1, 0), []⟩, ⟨2, 1, (0, 1, 1), []⟩] (0, 0, 0) (by decide)

/-! ## C6: mesh point count and iteration order -/

/-- Length of a `flatMap` whose pieces all have the same length. -/
theorem length_flatMap_const {α β : Type _} :
    ∀ (l : List α) (f : α → List β) (L : Nat),
      (∀ a ∈ l, (f a).length = L) → (l.flatMap f).length = l.length * L := by
  intro l
  induction l with
  | nil => intro f L _; simp
  | cons x xs ih =>
    intro f L h
    simp only [List.flatMap_cons, List.length_append, List.length_cons]
    rw [h x (by simp), ih f L (fun a ha => h a (by simp [ha]))]
    ring

/-- Element lookup in a `flatMap` whose pieces all have the same length: the
flat index `i * L + r` addresses element `r` of piece `i`. -/
theorem get?_flatMap_const {α β : Type _} :
    ∀ (l : List α) (f : α → List β) (L i r : Nat) (a : α),
      (∀ x ∈ l, (f x).length = L) → r < L → l.get? i = some a →
      (l.flatMap f).get? (i * L + r) = (f a).get? r := by
  intro l
  induction l with
  | nil => intro f L i r a _ _ hget; simp at hget
  | cons x xs ih =>
    intro f L i r a h hr hget
    cases i with
    | zero =>
      simp only [List.get?] at hget
      cases hget
      simp only [List.flatMap_cons, Nat.zero_mul, Nat.zero_add]
      rw [List.get?_append]
      rw [h x (by simp)]
      exact hr
    | succ i =>
      simp only [List.get?] at hget
      have hxlen : (f x).length = L := h x (by simp)
      have hidx : (f x).length ≤ (i + 1) * L + r := by
        rw [hxlen, Nat.succ_mul]
        omega
      simp only [List.flatMap_cons]
      rw [List.get?_append_right hidx, hxlen]
      have harith : (i + 1) * L + r - L = i * L + r := by
        rw [Nat.succ_mul]
        omega
      rw [harith]
      exact ih f L i r a (fun y hy => h y (by simp [hy])) hr hget

/-- C6: the list of mesh points has exactly `len(mesh)` elements, `len(mesh)`
is the product of the three axis point counts, and the point at flat position
`i·(n₁·n₂) + j·n₂ + k` is the origin shifted `i` steps along axis 0, `j`
along axis 1 and `k` along axis 2 — i.e. the third axis varies fastest and
the first slowest. -/
theorem mesh_points_spec (m : GridMesh) :
    (GridMesh.points m).length = m.len ∧
    m.len = m.ax0.point_count * m.ax1.point_count * m.ax2.point_count ∧
    (∀ i j k, i < m.ax0.point_count → j < m.ax1.point_count → k < m.ax2.point_count →
      (GridMesh.points m).get?
          (i * (m.ax1.point_count * m.ax2.point_count) + j * m.ax2.point_count + k)
        = some (m.origin.1 + (i : ℚ) * m.ax0.vector.1,
                m.origin.2.1 + (j : ℚ) * m.ax1.vector.2.1,
                m.origin.2.2 + (k : ℚ) * m.ax2.vector.2.2)) := by
  have hinner : ∀ i : Nat,
      ((List.range m.ax1.point_count).flatMap fun (j : Nat) =>
        (List.range m.ax2.point_count).map fun (k : Nat) =>
          ((m.origin.1 + (i : ℚ) * m.ax0.vector.1,
            m.origin.2.1 + (j : ℚ) * m.ax1.vector.2.1,
            m.origin.2.2 + (k : ℚ) * m.ax2.vector.2.2) : Point)).length
        = m.ax1.point_count * m.ax2.point_count := by
    intro i
    rw [length_flatMap_const _ _ m.ax2.point_count (fun j _ => by simp)]
    simp
  refine ⟨?_, rfl, ?_⟩
  · unfold GridMesh.points GridMesh.len
    rw [length_flatMap_const _ _ (m.ax1.point_count * m.ax2.point_count)
      (fun i _ => hinner i)]
    rw [List.length_range]
    ring
  · intro i j k hi hj hk
    have hjk : j * m.ax2.point_count + k < m.ax1.point_count * m.ax2.point_count := by
      calc j * m.ax2.point_count + k < j * m.ax2.point_count + m.ax2.point_count := by omega
        _ = (j + 1) * m.ax2.point_count := by ring
        _ ≤ m.ax1.point_count * m.ax2.point_count := Nat.mul_le_mul_right _ (by omega)
    unfold GridMesh.points
    rw [Nat.add_assoc]
    rw [get?_flatMap_const _ _ (m.ax1.point_count * m.ax2.point_count)
      i (j * m.ax2.point_count + k) i (fun x _ => hinner x) hjk
      (by rw [List.get?_range hi])]
    rw [get?_flatMap_const _ _ m.ax2.point_count j k j
      (fun x _ => by simp) hk (by rw [List.get?_range hj])]
    rw [List.get?_map, List.get?_range hk]
    rfl

/-- Witness for C6's ordering clause at a concrete mesh: in a 2×2×3 unit
mesh, flat position `1·6 + 1·3 + 2 = 11` holds the point `(1, 1, 2)`. -/
theorem mesh_points_spec_witness :
    (GridMesh.points ⟨(0, 0, 0), ⟨(1, 0, 0), 2⟩, ⟨(0, 1, 0), 2⟩, ⟨(0, 0, 1), 3⟩⟩).get?
        (1 * (2 * 3) + 1 * 3 + 2)
      = some ((0 : ℚ) + (1 : ℚ) * 1, (0 : ℚ) + (1 : ℚ) * 1, (0 : ℚ) + (2 : ℚ) * 1) :=
  (mesh_points_spec ⟨(0, 0, 0), ⟨(1, 0, 0), 2⟩, ⟨(0, 1, 0), 2⟩, ⟨(0, 0, 1), 3⟩⟩).2.2
    1 1 2 (by decide) (by decide) (by decide)

/-! ## `cube_helpers.py`: `Molecule._rep_esp_func` (C9) -/

/-- A squared distance vanishes exactly at coincident points, so the
source's division by `euclidean(p, atom.coords)` divides by zero exactly
when `sqdist` is zero. -/
theorem sqdist_eq_zero_iff (p q : Point) : sqdist p q = 0 ↔ p = q := by
  obtain ⟨p1, p2, p3⟩ := p
  obtain ⟨q1, q2, q3⟩ := q
  unfold sqdist
  constructor
  · intro h
    have h1 : p1 - q1 = 0 := by nlinarith [sq_nonneg (p1 - q1), sq_nonneg (p2 - q2), sq_nonneg (p3 - q3)]
    have h2 : p2 - q2 = 0 := by nlinarith [sq_nonneg (p1 - q1), sq_nonneg (p2 - q2), sq_nonneg (p3 - q3)]
    have h3 : p3 - q3 = 0 := by nlinarith [sq_nonneg (p1 - q1), sq_nonneg (p2 - q2), sq_nonneg (p3 - q3)]
    simp only [Prod.mk.injEq]
    refine ⟨by linarith, by linarith, by linarith⟩
  · intro h
    cases h
    ring

/-- A squared distance is a sum of squares, hence nonnegative. -/
theorem sqdist_nonneg (p q : Point) : 0 ≤ sqdist p q := by
  unfold sqdist
  positivity

/-- The loop of `Molecule._rep_esp_func` (`cube_helpers.py` 186-192).  Per
atom it looks up `atom.charges[charge_type]` (a missing key raises
`KeyError`) and adds `charge / euclidean(p, atom.coords)`.
`scipy.spatial.distance.euclidean` returns an `np.float64`, so the division
is numpy scalar division, which never raises: at a zero distance it yields
`inf`/`-inf` (or `nan` for a zero charge) and emits only a non-fatal
`RuntimeWarning`.  The accumulated sum `Σ qᵢ/√dᵢ` is irrational in general,
so the model carries the list of summands `(qᵢ, dᵢ)` with `dᵢ` the squared
distance; a summand with `dᵢ = 0` denotes the infinite (or `nan`)
contribution of a coincident atom. -/
def rep_esp_go (charge_type : String) (p : Point) :
    List Atom → List (ℚ × ℚ) → Except PyErr (List (ℚ × ℚ))
  | [], acc => .ok acc
  | a :: rest, acc =>
    match a.charges.lookup charge_type with
    | none => .error .keyError
    | some q => rep_esp_go charge_type p rest (acc ++ [(q, sqdist p a.coords)])

/-- `Molecule._rep_esp_func` (`cube_helpers.py` 186-192). -/
def rep_esp_func (mol : List Atom) (charge_type : String) (p : Point) :
    Except PyErr (List (ℚ × ℚ)) :=
  rep_esp_go charge_type p mol []

/-- Accumulator-generalized behaviour of the `_rep_esp_func` loop: when
every atom carries the selected charge type, the loop completes and returns
one summand per atom, in molecule order. -/
theorem rep_esp_go_ok (charge_type : String) (p : Point) :
    ∀ (mol : List Atom) (acc : List (ℚ × ℚ)),
      (∀ a ∈ mol, (a.charges.lookup charge_type).isSome) →
      rep_esp_go charge_type p mol acc =
        .ok (acc ++ mol.map fun a =>
          ((a.charges.lookup charge_type).getD 0, sqdist p a.coords)) := by
  intro mol
  induction mol with
  | nil =>
    intro acc _
    simp [rep_esp_go]
  | cons a rest ih =>
    intro acc hall
    obtain ⟨q, hq⟩ := Option.isSome_iff_exists.mp (hall a (by simp))
    have hrest : ∀ b ∈ rest, (b.charges.lookup charge_type).isSome :=
      fun b hb => hall b (by simp [hb])
    rw [show rep_esp_go charge_type p (a :: rest) acc
          = rep_esp_go charge_type p rest (acc ++ [(q, sqdist p a.coords)]) by
        simp [rep_esp_go, hq]]
    rw [ih (acc ++ [(q, sqdist p a.coords)]) hrest]
    simp [hq]

/-! ## C9 (corrected) -/

/-- C9 counterexample: a one-atom molecule carrying the `"mull"` charge,
evaluated exactly at the atom's position, completes with the atom's
zero-distance summand (denoting an infinite value) — it does not raise
`ZeroDivisionError`, because numpy scalar division by zero returns `inf`
with a non-fatal `RuntimeWarning` instead of raising. -/
theorem rep_esp_func_counterexample :
    rep_esp_func [⟨1, 1, (0, 0, 0), [("mull", 1)]⟩] "mull" (0, 0, 0)
      = .ok [(1, 0)] ∧
    rep_esp_func [⟨1, 1, (0, 0, 0), [("mull", 1)]⟩] "mull" (0, 0, 0)
      ≠ .error .zeroDivision := by
  have h : rep_esp_func [⟨1, 1, (0, 0, 0), [("mull", 1)]⟩] "mull" (0, 0, 0)
      = .ok [(1, 0)] := by
    rw [rep_esp_func,
      rep_esp_go_ok "mull" (0, 0, 0) [⟨1, 1, (0, 0, 0), [("mull", 1)]⟩] []
        (by intro a ha; simp at ha; subst ha; rfl)]
    norm_num [sqdist, List.lookup]
  exact ⟨h, by rw [h]; simp⟩

/-- C9 (amended): when every atom carries the selected charge type, the
point-charge evaluation never raises on the division — `euclidean` returns
an `np.float64` and numpy scalar division by zero yields an infinity (or
`nan`) with only a `RuntimeWarning` — so every per-point evaluation
completes with one summand per atom.  A grid point coincides with some
atom's coordinates iff the result contains a zero-distance (infinite)
summand; under the precondition that no point coincides with any atom,
every summand has strictly positive squared distance and the infinite-value
outcome is unreachable. -/
theorem rep_esp_func_completes (mol : List Atom) (charge_type : String) (p : Point)
    (hall : ∀ a ∈ mol, (a.charges.lookup charge_type).isSome) :
    ∃ rs, rep_esp_func mol charge_type p = .ok rs ∧
      rs.length = mol.length ∧
      ((∃ a ∈ mol, a.coords = p) ↔ ∃ s ∈ rs, s.2 = 0) ∧
      ((∀ a ∈ mol, a.coords ≠ p) → ∀ s ∈ rs, 0 < s.2) := by
  refine ⟨mol.map fun a => ((a.charges.lookup charge_type).getD 0, sqdist p a.coords),
    ?_, by simp, ?_, ?_⟩
  · rw [rep_esp_func, rep_esp_go_ok charge_type p mol [] hall]
    simp
  · constructor
    · rintro ⟨a, ha, hap⟩
      refine ⟨((a.charges.lookup charge_type).getD 0, sqdist p a.coords),
        List.mem_map.mpr ⟨a, ha, rfl⟩, ?_⟩
      exact (sqdist_eq_zero_iff p a.coords).mpr hap.symm
    · rintro ⟨s, hs, hs0⟩
      rcases List.mem_map.mp hs with ⟨a, ha, rfl⟩
      exact ⟨a, ha, ((sqdist_eq_zero_iff p a.coords).mp hs0).symm⟩
  · intro hne s hs
    rcases List.mem_map.mp hs with ⟨a, ha, rfl⟩
    have hnz : sqdist p a.coords ≠ 0 := fun h0 =>
      hne a ha (((sqdist_eq_zero_iff p a.coords).mp h0).symm)
    exact lt_of_le_of_ne (sqdist_nonneg p a.coords) (Ne.symm hnz)

/-- Witness for C9 (amended) at a concrete input: the one-atom molecule
evaluated at the atom's own position completes, and its summand list
witnesses the coincidence through a zero squared distance. -/
theorem rep_esp_func_completes_witness :
    ∃ rs, rep_esp_func [⟨1, 1, (0, 0, 0), [("mull", 1)]⟩] "mull" (0, 0, 0) = .ok rs ∧
      rs.length = ([⟨1, 1, (0, 0, 0), [("mull", 1)]⟩] : List Atom).length ∧
      ((∃ a ∈ ([⟨1, 1, (0, 0, 0), [("mull", 1)]⟩] : List Atom),
          a.coords = ((0, 0, 0) : Point)) ↔ ∃ s ∈ rs, s.2 = 0) ∧
      ((∀ a ∈ ([⟨1, 1, (0, 0, 0), [("mull", 1)]⟩] : List Atom),
          a.coords ≠ ((0, 0, 0) : Point)) → ∀ s ∈ rs, 0 < s.2) :=
  rep_esp_func_completes [⟨1, 1, (0, 0, 0), [("mull", 1)]⟩] "mull" (0, 0, 0)
    (by intro a ha; simp at ha; subst ha; rfl)

/-! ## `cube_helpers.py`: `Grid`, `Molecule.calc_field` (C10) -/

/-- The `Grid` of `cube_helpers.py` as used by `calc_field`: per-axis point
counts, origin coordinates and directional intervals (the aligned case, in
which `dir_intervals` is populated). -/
structure Grid where
  n0 : Nat
  n1 : Nat
  n2 : Nat
  origin0 : ℚ
  origin1 : ℚ
  origin2 : ℚ
  step0 : ℚ
  step1 : ℚ
  step2 : ℚ
  deriving DecidableEq, Repr

/-- The triple loop of `Molecule.calc_field` (`cube_helpers.py` 163-168):
`x`, then `y`, then `z`, each coordinate `origin + index * dir_interval`. -/
def Grid.points (g : Grid) : List Point :=
  (List.range g.n0).flatMap fun (ix : Nat) =>
    (List.range g.n1).flatMap fun (iy : Nat) =>
      (List.range g.n2).map fun (iz : Nat) =>
        (g.origin0 + (ix : ℚ) * g.step0,
         g.origin1 + (iy : ℚ) * g.step1,
         g.origin2 + (iz : ℚ) * g.step2)

/-- The accumulation in `Molecule.calc_field` (`cube_helpers.py` 169-176):
`results` is unbound (`none`) until the first visited point, whose values
create one singleton list per returned value (the `NameError` retry); each
later point appends its values elementwise. -/
def calc_field_loop (field_func : Point → List ℚ) (pts : List Point) :
    Option (List (List ℚ)) :=
  pts.foldl
    (fun results pnt =>
      match results with
      | none => some ((field_func pnt).map fun v => [v])
      | some rs => some (List.zipWith (fun r v => r ++ [v]) rs (field_func pnt)))
    none

/-- `Molecule.calc_field` (`cube_helpers.py` 163-184): after the loops,
`results` is consumed unconditionally (`zip(results, ...)`), so if no point
was ever visited the unbound name raises `NameError`. -/
def calc_field (g : Grid) (field_func : Point → List ℚ) :
    Except PyErr (List (List ℚ)) :=
  match calc_field_loop field_func (Grid.points g) with
  | none => .error .nameError
  | some rs => .ok rs

/-! ## C10 (confirmed) -/

/-- C10: on a grid whose total point count is zero (some axis has point
count 0), `calc_field` fails with `NameError` for every model function — the
results accumulator is only created upon visiting the first point — and in
particular never returns a list of empty fields. -/
theorem calc_field_empty_grid (g : Grid) (field_func : Point → List ℚ)
    (h : g.n0 * g.n1 * g.n2 = 0) :
    calc_field g field_func = .error .nameError := by
  have hlen : (Grid.points g).length = g.n0 * g.n1 * g.n2 := by
    unfold Grid.points
    rw [length_flatMap_const _ _ (g.n1 * g.n2)
      (fun i _ => by
        rw [length_flatMap_const _ _ g.n2 (fun j _ => by simp)]
        simp)]
    simp [Nat.mul_assoc]
  have hnil : Grid.points g = [] := by
    rw [← List.length_eq_zero]
    rw [hlen, h]
  unfold calc_field
  rw [hnil]
  rfl

/-- Witness for C10 at a concrete input: a 2×0×3 grid with a constant model
function fails with `NameError`. -/
theorem calc_field_empty_grid_witness :
    calc_field ⟨2, 0, 3, 0, 0, 0, 1, 1, 1⟩ (fun _ => [0]) = .error .nameError :=
  calc_field_empty_grid ⟨2, 0, 3, 0, 0, 0, 1, 1, 1⟩ (fun _ => [0]) (by decide)

/-! ## `cube_helpers.py`: `Field.distance_transform` (C1) -/

/-- The voxel index triples of an `n0 × n1 × n2` volume, in cube order. -/
def voxelList (n0 n1 n2 : Nat) : List (Nat × Nat × Nat) :=
  (List.range n0).flatMap fun (i : Nat) =>
    (List.range n1).flatMap fun (j : Nat) =>
      (List.range n2).map fun (k : Nat) => (i, j, k)

/-- A density field on a coordinate-aligned grid as consumed by
`Field.distance_transform`: per-axis point counts, the three
`dir_intervals`, and the flattened values in cube order. -/
structure Volume where
  n0 : Nat
  n1 : Nat
  n2 : Nat
  s0 : ℚ
  s1 : ℚ
  s2 : ℚ
  vals : List ℚ
  deriving DecidableEq, Repr

/-- Row-major (numpy) flat index of a voxel triple. -/
def Volume.flatIdx (v : Volume) (q : Nat × Nat × Nat) : Nat :=
  q.1 * (v.n1 * v.n2) + q.2.1 * v.n2 + q.2.2

/-- The density value of a voxel. -/
def Volume.valAt (v : Volume) (q : Nat × Nat × Nat) : ℚ :=
  v.vals.getD (v.flatIdx q) 0

/-- `select_iso` (`cube_helpers.py` 226): `1 if x < isovalue else 0` — the
isosurface and its interior become a 3D solid of `0`s. -/
def select_iso (isovalue x : ℚ) : Nat :=
  if x < isovalue then 1 else 0

/-- The voxels mapped to `0` by the indicator (density `≥ isovalue`). -/
def interiorVoxels (v : Volume) (iso : ℚ) : List (Nat × Nat × Nat) :=
  (voxelList v.n0 v.n1 v.n2).filter fun q => select_iso iso (v.valAt q) == 0

/-- Anisotropic squared Euclidean distance between two voxels, using the
per-axis `dir_intervals` as sampling distances (the `sampling` argument of
`scipy.ndimage.distance_transform_edt`). -/
def wsqdist (v : Volume) (a b : Nat × Nat × Nat) : ℚ :=
  (v.s0 * (((a.1 : ℤ) - (b.1 : ℤ) : ℤ) : ℚ)) ^ 2 +
  (v.s1 * (((a.2.1 : ℤ) - (b.2.1 : ℤ) : ℤ) : ℚ)) ^ 2 +
  (v.s2 * (((a.2.2 : ℤ) - (b.2.2 : ℤ) : ℤ) : ℚ)) ^ 2

/-- Minimum of a list of rationals, starting from `⊤` (empty list ↦ `⊤`). -/
def listMinTop (l : List ℚ) : WithTop ℚ :=
  l.foldl (fun acc x => if (x : WithTop ℚ) < acc then (x : WithTop ℚ) else acc) ⊤

/-- `scipy.ndimage.distance_transform_edt` as called by
`Field.distance_transform` (`cube_helpers.py` 213-229), modelled by its
documented semantics: each voxel whose indicator is nonzero is replaced by
the Euclidean distance (anisotropic sampling) to the nearest zero-indicator
voxel, and zero-indicator voxels get value `0`.  Distances are carried
squared (`Real.sqrt` is strictly monotone, so zero tests and comparisons
agree with the source's values). -/
def edtSq (v : Volume) (iso : ℚ) (q : Nat × Nat × Nat) : WithTop ℚ :=
  if select_iso iso (v.valAt q) = 0 then ((0 : ℚ) : WithTop ℚ)
  else listMinTop ((interiorVoxels v iso).map (wsqdist v q))

/-- A strict lower bound on the seed and every element bounds the running
minimum. -/
theorem lt_foldl_min (b : WithTop ℚ) :
    ∀ (l : List ℚ) (acc : WithTop ℚ),
      (∀ x ∈ l, b < (x : WithTop ℚ)) → b < acc →
      b < l.foldl (fun a x => if (x : WithTop ℚ) < a then (x : WithTop ℚ) else a) acc := by
  intro l
  induction l with
  | nil => intro acc _ hacc; exact hacc
  | cons x xs ih =>
    intro acc hall hacc
    have hcons : (x :: xs).foldl
        (fun a x => if (x : WithTop ℚ) < a then (x : WithTop ℚ) else a) acc
      = xs.foldl (fun a x => if (x : WithTop ℚ) < a then (x : WithTop ℚ) else a)
          (if (x : WithTop ℚ) < acc then (x : WithTop ℚ) else acc) := rfl
    rw [hcons]
    apply ih
    · intro y hy
      exact hall y (by simp [hy])
    · by_cases hx : (x : WithTop ℚ) < acc
      · simpa [hx] using hall x (by simp)
      · simpa [hx] using hacc

/-- A nonzero anisotropic squared distance between distinct voxels. -/
theorem wsqdist_pos (v : Volume) (a b : Nat × Nat × Nat)
    (hs0 : v.s0 ≠ 0) (hs1 : v.s1 ≠ 0) (hs2 : v.s2 ≠ 0) (hab : a ≠ b) :
    0 < wsqdist v a b := by
  obtain ⟨a1, a2, a3⟩ := a
  obtain ⟨b1, b2, b3⟩ := b
  have hcases : a1 ≠ b1 ∨ a2 ≠ b2 ∨ a3 ≠ b3 := by
    by_contra hc
    push_neg at hc
    exact hab (by rw [hc.1, hc.2.1, hc.2.2])
  unfold wsqdist
  rcases hcases with h | h | h
  · have hd : (((a1 : ℤ) - (b1 : ℤ) : ℤ) : ℚ) ≠ 0 := by
      rw [Int.cast_ne_zero]
      omega
    have h1 : 0 < (v.s0 * (((a1 : ℤ) - (b1 : ℤ) : ℤ) : ℚ)) ^ 2 :=
      pow_two_pos_of_ne_zero (mul_ne_zero hs0 hd)
    nlinarith [sq_nonneg (v.s1 * (((a2 : ℤ) - (b2 : ℤ) : ℤ) : ℚ)),
               sq_nonneg (v.s2 * (((a3 : ℤ) - (b3 : ℤ) : ℤ) : ℚ))]
  · have hd : (((a2 : ℤ) - (b2 : ℤ) : ℤ) : ℚ) ≠ 0 := by
      rw [Int.cast_ne_zero]
      omega
    have h1 : 0 < (v.s1 * (((a2 : ℤ) - (b2 : ℤ) : ℤ) : ℚ)) ^ 2 :=
      pow_two_pos_of_ne_zero (mul_ne_zero hs1 hd)
    nlinarith [sq_nonneg (v.s0 * (((a1 : ℤ) - (b1 : ℤ) : ℤ) : ℚ)),
               sq_nonneg (v.s2 * (((a3 : ℤ) - (b3 : ℤ) : ℤ) : ℚ))]
  · have hd : (((a3 : ℤ) - (b3 : ℤ) : ℤ) : ℚ) ≠ 0 := by
      rw [Int.cast_ne_zero]
      omega
    have h1 : 0 < (v.s2 * (((a3 : ℤ) - (b3 : ℤ) : ℤ) : ℚ)) ^ 2 :=
      pow_two_pos_of_ne_zero (mul_ne_zero hs2 hd)
    nlinarith [sq_nonneg (v.s0 * (((a1 : ℤ) - (b1 : ℤ) : ℤ) : ℚ)),
               sq_nonneg (v.s1 * (((a2 : ℤ) - (b2 : ℤ) : ℤ) : ℚ))]

/-! ## C1 (corrected) -/

/-- C1 counterexample: in a 1×1×2 unit-step volume with densities `[0, 2]`
and isovalue `1`, the voxel `(0,0,0)` has density `0 < 1` yet its transform
value is `1` (its distance to the interior voxel `(0,0,1)`), not `0` — the
claim has the polarity of the indicator reversed. -/
theorem distance_transform_counterexample :
    Volume.valAt ⟨1, 1, 2, 1, 1, 1, [0, 2]⟩ (0, 0, 0) < (1 : ℚ) ∧
    edtSq ⟨1, 1, 2, 1, 1, 1, [0, 2]⟩ 1 (0, 0, 0) = ((1 : ℚ) : WithTop ℚ) ∧
    ((1 : ℚ) : WithTop ℚ) ≠ ((0 : ℚ) : WithTop ℚ) := by
  refine ⟨by norm_num [Volume.valAt, Volume.flatIdx], ?_, by simp⟩
  norm_num [edtSq, select_iso, Volume.valAt, Volume.flatIdx, interiorVoxels,
    voxelList, listMinTop, wsqdist, List.range_succ]

/-- C1 (amended): for a density field on a coordinate-aligned mesh (accepted
by the distance transform) with nonzero step sizes, every voxel whose
density is `≥` the isovalue has transform value exactly `0` (it belongs to
the zero-indicator solid), and every voxel whose density is `< ` the
isovalue has transform value strictly greater than `0` — the opposite
polarity of the claim, with no exception for voxels adjacent to an
isovalue crossing. -/
theorem distance_transform_spec (v : Volume) (iso : ℚ)
    (hs0 : v.s0 ≠ 0) (hs1 : v.s1 ≠ 0) (hs2 : v.s2 ≠ 0) :
    (∀ q, ¬ v.valAt q < iso → edtSq v iso q = ((0 : ℚ) : WithTop ℚ)) ∧
    (∀ q, v.valAt q < iso → 0 < edtSq v iso q) := by
  constructor
  · intro q hq
    simp [edtSq, select_iso, hq]
  · intro q hq
    have hsel : select_iso iso (v.valAt q) = 1 := by
      simp [select_iso, hq]
    rw [show edtSq v iso q = listMinTop ((interiorVoxels v iso).map (wsqdist v q)) by
      simp [edtSq, hsel]]
    apply lt_foldl_min
    · intro x hx
      rcases List.mem_map.mp hx with ⟨b, hb, hxb⟩
      have hb0 : select_iso iso (v.valAt b) = 0 :=
        by simpa using (List.mem_filter.mp hb).2
      have hbq : q ≠ b := by
        intro hqb
        rw [← hqb, hsel] at hb0
        exact one_ne_zero hb0
      have := wsqdist_pos v q b hs0 hs1 hs2 hbq
      rw [← hxb]
      exact_mod_cast this
    · exact WithTop.top_pos

/-- Witness for C1 (amended) at the concrete 1×1×2 volume: voxel `(0,0,1)`
(density `2 ≥ 1`) maps to `0`, voxel `(0,0,0)` (density `0 < 1`) maps to a
strictly positive value. -/
theorem distance_transform_spec_witness :
    edtSq ⟨1, 1, 2, 1, 1, 1, [0, 2]⟩ 1 (0, 0, 1) = ((0 : ℚ) : WithTop ℚ) ∧
    0 < edtSq ⟨1, 1, 2, 1, 1, 1, [0, 2]⟩ 1 (0, 0, 0) :=
  ⟨(distance_transform_spec ⟨1, 1, 2, 1, 1, 1, [0, 2]⟩ 1 (by norm_num) (by norm_num)
      (by norm_num)).1 (0, 0, 1) (by norm_num [Volume.valAt, Volume.flatIdx]),
   (distance_transform_spec ⟨1, 1, 2, 1, 1, 1, [0, 2]⟩ 1 (by norm_num) (by norm_num)
      (by norm_num)).2 (0, 0, 0) (by norm_num [Volume.valAt, Volume.flatIdx])⟩

/-! ## `cube_helpers.py`: `Field.write_cube` value block (C8) -/

/-- A token of the value block written by `Field.write_cube`: a formatted
field value or a newline character. -/
inductive Tok where
  | val (v : ℚ)
  | nl
  deriving DecidableEq, Repr

/-- The value-block loop of `Field.write_cube` (`cube_helpers.py` 252-261):
the counter `i` starts at 1; after each value is written, a newline follows
when `i % 6 == 0`, and when `i % nz == 0` (`nz` the point count of the third
axis — a complete run along the fastest axis) a further newline follows and
`i` resets to 1; otherwise `i` increments. -/
def writeVals (nz : Nat) : List ℚ → Nat → List Tok
  | [], _ => []
  | v :: rest, i =>
    Tok.val v ::
      ((if i % 6 = 0 then [Tok.nl] else []) ++
       (if i % nz = 0 then Tok.nl :: writeVals nz rest 1
        else writeVals nz rest (i + 1)))

/-- One-step unfolding of `writeVals` on a cons cell. -/
theorem writeVals_cons (nz : Nat) (v : ℚ) (rest : List ℚ) (i : Nat) :
    writeVals nz (v :: rest) i =
      Tok.val v ::
        ((if i % 6 = 0 then [Tok.nl] else []) ++
         (if i % nz = 0 then Tok.nl :: writeVals nz rest 1
          else writeVals nz rest (i + 1))) := rfl

/-- The wrapping the spec prescribes within a single run along the fastest
axis: a newline after every value whose 1-based position within the run is
divisible by 6; `i` is the position of the head of the remaining run. -/
def wrapSixFrom (i : Nat) : List ℚ → List Tok
  | [] => []
  | v :: rest =>
    Tok.val v :: ((if i % 6 = 0 then [Tok.nl] else []) ++ wrapSixFrom (i + 1) rest)

/-- Cuts a list into consecutive runs of `nzm1 + 1` values. -/
def runsOf (nzm1 : Nat) : List ℚ → List (List ℚ)
  | [] => []
  | v :: rest =>
    ((v :: rest).take (nzm1 + 1)) :: runsOf nzm1 ((v :: rest).drop (nzm1 + 1))
termination_by l => l.length
decreasing_by simp [List.length_drop]; omega

/-- Modelled from the spec's words: the flattened values are cut into runs
along the fastest (third) axis; within each run a newline follows every 6th
value (the 6-value counter restarting at each run boundary) and every
complete run is followed by a newline — both fire at a run end whose length
is a multiple of 6. -/
def specWrite (nz : Nat) (vs : List ℚ) : List Tok :=
  (runsOf (nz - 1) vs).flatMap fun run => wrapSixFrom 1 run ++ [Tok.nl]

/-- Within one run ending at the counter value `nz`, the source loop emits
the run's values with the 6-wrapping, then the run-end newline, then resets
the counter. -/
theorem writeVals_run (nz : Nat) (hnz : 0 < nz) :
    ∀ (s : List ℚ), s ≠ [] → ∀ (rest : List ℚ) (i : Nat), 1 ≤ i → i + s.length = nz + 1 →
      writeVals nz (s ++ rest) i = wrapSixFrom i s ++ (Tok.nl :: writeVals nz rest 1) := by
  intro s
  induction s with
  | nil => intro h; exact absurd rfl h
  | cons v s ih =>
    intro _ rest i hi hsum
    cases s with
    | nil =>
      have hieq : i = nz := by simpa using hsum
      subst hieq
      simp [writeVals_cons, wrapSixFrom, Nat.mod_self]
    | cons v2 s2 =>
      have hilt : i < nz := by
        simp only [List.length_cons] at hsum
        omega
      have himod : i % nz = i := Nat.mod_eq_of_lt hilt
      have hne : i % nz ≠ 0 := by omega
      have hstep := ih (by simp) rest (i + 1) (by omega)
        (by simp only [List.length_cons] at hsum ⊢; omega)
      rw [List.cons_append, writeVals_cons, if_neg hne, hstep]
      rw [show wrapSixFrom i (v :: v2 :: s2)
            = Tok.val v :: ((if i % 6 = 0 then [Tok.nl] else [])
                ++ wrapSixFrom (i + 1) (v2 :: s2)) from rfl]
      simp [List.append_assoc]

/-- The source loop started at counter 1 on a value list consisting of whole
runs produces exactly the per-run wrapping (bounded-length induction). -/
theorem writeVals_eq_aux (nz : Nat) (hnz : 0 < nz) :
    ∀ (N : Nat) (vs : List ℚ), vs.length ≤ N → nz ∣ vs.length →
      writeVals nz vs 1 = specWrite nz vs := by
  intro N
  induction N with
  | zero =>
    intro vs hlen _
    have : vs = [] := List.eq_nil_of_length_eq_zero (by omega)
    subst this
    simp [writeVals, specWrite, runsOf]
  | succ N ih =>
    intro vs hlen hdvd
    cases hvs : vs with
    | nil => simp [writeVals, specWrite, runsOf]
    | cons v rest =>
      subst hvs
      have hcl : (v :: rest).length = rest.length + 1 := by simp
      have hlen1 : nz ≤ (v :: rest).length := Nat.le_of_dvd (by simp) hdvd
      have hs_len : ((v :: rest).take nz).length = nz := by
        simp [List.length_take]
        omega
      have hst : (v :: rest).take nz ++ (v :: rest).drop nz = v :: rest :=
        List.take_append_drop _ _
      have hs_ne : (v :: rest).take nz ≠ [] := by
        intro h
        rw [h] at hs_len
        simp at hs_len
        omega
      have hrun := writeVals_run nz hnz ((v :: rest).take nz) hs_ne
        ((v :: rest).drop nz) 1 (le_refl 1) (by rw [hs_len]; omega)
      have hdrop_len : ((v :: rest).drop nz).length = (v :: rest).length - nz := by
        simp [List.length_drop]
      have hih := ih ((v :: rest).drop nz)
        (by rw [hdrop_len, hcl]; omega)
        (by
          rcases hdvd with ⟨c, hc⟩
          have hc1 : 1 ≤ c := by
            rcases Nat.eq_zero_or_pos c with h0 | h1
            · rw [h0, Nat.mul_zero] at hc
              rw [hcl] at hc
              omega
            · exact h1
          obtain ⟨c2, rfl⟩ : ∃ c2, c = c2 + 1 := ⟨c - 1, by omega⟩
          refine ⟨c2, ?_⟩
          rw [hdrop_len, hc, Nat.mul_succ]
          omega)
      have hruns : runsOf (nz - 1) (v :: rest)
          = (v :: rest).take nz :: runsOf (nz - 1) ((v :: rest).drop nz) := by
        rw [runsOf]
        have hadd : nz - 1 + 1 = nz := by omega
        rw [hadd]
      calc writeVals nz (v :: rest) 1
          = writeVals nz ((v :: rest).take nz ++ (v :: rest).drop nz) 1 := by rw [hst]
        _ = wrapSixFrom 1 ((v :: rest).take nz)
              ++ (Tok.nl :: writeVals nz ((v :: rest).drop nz) 1) := hrun
        _ = wrapSixFrom 1 ((v :: rest).take nz)
              ++ (Tok.nl :: specWrite nz ((v :: rest).drop nz)) := by rw [hih]
        _ = specWrite nz (v :: rest) := by
              simp [specWrite, hruns]

/-! ## C8 (confirmed) -/

/-- C8: on the cube write path with a grid whose fastest (third) axis has a
positive point count and a value list of the full mesh size, the emitted
value block equals the spec's wrapping: values flattened in mesh order, cut
into complete third-axis runs, a newline after every 6 values within a run
(the 6-value counter restarting at each run boundary) and a newline after
every complete run — with both newlines emitted at a run end whose length is
a multiple of 6. -/
theorem write_cube_wrapping (g : Grid) (vs : List ℚ)
    (hlen : vs.length = g.n0 * g.n1 * g.n2) (hnz : 0 < g.n2) :
    writeVals g.n2 vs 1 = specWrite g.n2 vs :=
  writeVals_eq_aux g.n2 hnz vs.length vs (le_refl _)
    (by rw [hlen]; exact Dvd.intro_left (g.n0 * g.n1) rfl)

/-- Witness for C8 at a concrete input: a 1×2×2 grid with four values. -/
theorem write_cube_wrapping_witness :
    writeVals (Grid.n2 ⟨1, 2, 2, 0, 0, 0, 1, 1, 1⟩) [3, 1, 4, 1] 1
      = specWrite (Grid.n2 ⟨1, 2, 2, 0, 0, 0, 1, 1, 1⟩) [3, 1, 4, 1] :=
  write_cube_wrapping ⟨1, 2, 2, 0, 0, 0, 1, 1, 1⟩ [3, 1, 4, 1] (by decide) (by decide)
